import Mathlib

/-!
Shallow embedding of the feed-synchronization layer of the medical-notes web
application (`PostsClient.tsx`, the post-detail page, and the `/api/posts`
route handlers): the `Post` record, the background-refresh merge, the query
builders used by the feed fetcher and the REST listing endpoint, the
optimistic star toggle, the sign-out state reset, the debounce hook, and the
signed-thumbnail-URL resolution pass.
-/

/-- The `Post` record of `PostsClient.tsx` (fields `imagePaths` and `hasPdf`
are optional in the source type, hence `Option` here). -/
structure Post where
  id : String
  created_at : String
  content : String
  tags : Option (List String)
  is_starred : Bool
  user_id : String
  imagePaths : Option (List String) := none
  hasPdf : Option Bool := none
  deriving DecidableEq, Repr

/-- The ids of a list of posts are pairwise distinct (the FeedSnapshot
uniqueness invariant). -/
def nodupIds (l : List Post) : Prop :=
  (l.map Post.id).Nodup

instance decNodupIds (l : List Post) : Decidable (nodupIds l) :=
  inferInstanceAs (Decidable ((l.map Post.id).Nodup))

/-- One step of building a JavaScript `Map` from `[id, post]` pairs:
`Map.set` overwrites the value of an existing key in place and appends a
fresh key at the end. -/
def upsertById (acc : List Post) (p : Post) : List Post :=
  if acc.any (fun q => q.id == p.id) then
    acc.map (fun q => if q.id == p.id then p else q)
  else acc ++ [p]

/-- `Array.from(new Map(l.map(p => [p.id, p])).values())` from the
background-refresh merge of `PostsClient.tsx`. -/
def jsMapDedup (l : List Post) : List Post :=
  l.foldl upsertById []

/-- `posts.some(q => q.id === i)`. -/
def hasId (l : List Post) (i : String) : Bool :=
  l.any (fun r => r.id == i)

/-- `fetched.filter(p => !posts.some(q => q.id === p.id))`: the fetched
entries whose ids are absent from the current snapshot, in fetched order. -/
def newOnes (fetched posts : List Post) : List Post :=
  fetched.filter (fun q => ! hasId posts q.id)

/-- The background-refresh merge of `src/app/PostsClient.tsx` (lines
245-257): when both lists are non-empty and the head ids differ, prepend the
fetched entries whose ids are new and deduplicate the concatenation through
a JavaScript `Map` keyed by id; when the snapshot is empty, adopt the
fetched list wholesale; otherwise leave the snapshot untouched. -/
def mergeRefresh (fetched posts : List Post) : List Post :=
  match fetched, posts with
  | [], ps => ps
  | f :: fs, [] => f :: fs
  | f :: fs, p :: ps =>
    if f.id == p.id then p :: ps
    else
      let np := newOnes (f :: fs) (p :: ps)
      if np.isEmpty then p :: ps
      else jsMapDedup (np ++ (p :: ps))

/-- The background-refresh merge of the older client variant
(`src/unnamed/part_004`, lines 257-266): identical guards, but the new
entries are prepended directly with no `Map` dedupe pass. -/
def mergeRefreshOld (fetched posts : List Post) : List Post :=
  match fetched, posts with
  | [], ps => ps
  | f :: fs, [] => f :: fs
  | f :: fs, p :: ps =>
    if f.id == p.id then p :: ps
    else
      let np := newOnes (f :: fs) (p :: ps)
      if np.isEmpty then p :: ps
      else np ++ (p :: ps)

/-- Modelled from the spec: "the engine computes the set difference (fetched
ids not already present in the snapshot) and prepends only those new
entries, preserving the rest of the snapshot unchanged". -/
def specPrependAbsent (fetched posts : List Post) : List Post :=
  fetched.filter (fun q => ! hasId posts q.id) ++ posts

lemma hasId_eq_true_iff (l : List Post) (i : String) :
    hasId l i = true ↔ i ∈ l.map Post.id := by
  simp only [hasId, List.any_eq_true, beq_iff_eq, List.mem_map]

lemma map_id_upsertById_of_any (acc : List Post) (p : Post)
    (h : acc.any (fun q => q.id == p.id) = true) :
    (upsertById acc p).map Post.id = acc.map Post.id := by
  unfold upsertById
  rw [if_pos h, List.map_map]
  refine List.map_congr_left ?_
  intro q _
  by_cases hq : q.id = p.id
  · simp [Function.comp, hq]
  · simp [Function.comp, hq]

lemma map_id_upsertById_of_not_any (acc : List Post) (p : Post)
    (h : ¬ acc.any (fun q => q.id == p.id) = true) :
    (upsertById acc p).map Post.id = acc.map Post.id ++ [p.id] := by
  unfold upsertById
  rw [if_neg h, List.map_append]
  rfl

lemma nodupIds_upsertById (acc : List Post) (p : Post) (h : nodupIds acc) :
    nodupIds (upsertById acc p) := by
  unfold nodupIds at h ⊢
  by_cases hany : acc.any (fun q => q.id == p.id) = true
  · rw [map_id_upsertById_of_any acc p hany]
    exact h
  · rw [map_id_upsertById_of_not_any acc p hany]
    have hnotin : p.id ∉ acc.map Post.id := by
      intro hmem
      apply hany
      rw [← hasId_eq_true_iff] at hmem
      simpa [hasId] using hmem
    rw [List.nodup_append]
    exact ⟨h, List.nodup_singleton _, by
      intro x hx hx2
      simp only [List.mem_singleton] at hx2
      exact hnotin (hx2 ▸ hx)⟩

lemma nodupIds_foldl_upsertById (l : List Post) :
    ∀ acc : List Post, nodupIds acc → nodupIds (l.foldl upsertById acc) := by
  induction l with
  | nil => intro acc h; simpa using h
  | cons p l ih =>
    intro acc h
    rw [List.foldl_cons]
    exact ih (upsertById acc p) (nodupIds_upsertById acc p h)

lemma nodupIds_jsMapDedup (l : List Post) : nodupIds (jsMapDedup l) :=
  nodupIds_foldl_upsertById l [] (by simp [nodupIds])

lemma foldl_upsertById_of_nodup (l : List Post) :
    ∀ acc : List Post, nodupIds (acc ++ l) → l.foldl upsertById acc = acc ++ l := by
  induction l with
  | nil => intro acc _; simp
  | cons p l ih =>
    intro acc h
    have hsplit : nodupIds (acc ++ p :: l) := h
    unfold nodupIds at hsplit
    rw [List.map_append, List.nodup_append] at hsplit
    have hnotin : p.id ∉ acc.map Post.id := by
      intro hmem
      exact hsplit.2.2 hmem (by simp)
    have hany : ¬ acc.any (fun q => q.id == p.id) = true := by
      intro hcontr
      exact hnotin ((hasId_eq_true_iff acc p.id).mp (by simpa [hasId] using hcontr))
    rw [List.foldl_cons]
    have hstep : upsertById acc p = acc ++ [p] := by
      unfold upsertById
      rw [if_neg hany]
    rw [hstep, ih (acc ++ [p]) (by simpa [List.append_assoc] using h)]
    simp

lemma jsMapDedup_of_nodupIds (l : List Post) (h : nodupIds l) : jsMapDedup l = l :=
  foldl_upsertById_of_nodup l [] (by simpa using h)

lemma nodupIds_newOnes_append (fetched posts : List Post)
    (hf : nodupIds fetched) (hp : nodupIds posts) :
    nodupIds (newOnes fetched posts ++ posts) := by
  unfold nodupIds at hf hp ⊢
  rw [List.map_append, List.nodup_append]
  refine ⟨?_, hp, ?_⟩
  · exact hf.sublist ((List.filter_sublist fetched).map Post.id)
  · intro x hx hx2
    simp only [newOnes, List.mem_map] at hx
    obtain ⟨q, hq, hqx⟩ := hx
    rw [List.mem_filter] at hq
    have : hasId posts q.id = false := by
      rcases hq with ⟨_, hq2⟩
      simpa using hq2
    rw [hqx] at this
    rw [← hasId_eq_true_iff] at hx2
    rw [this] at hx2
    exact Bool.false_ne_true hx2

lemma nodupIds_mergeRefresh (fetched posts : List Post)
    (hf : nodupIds fetched) (hp : nodupIds posts) :
    nodupIds (mergeRefresh fetched posts) := by
  unfold mergeRefresh
  match fetched, posts with
  | [], ps => exact hp
  | f :: fs, [] => exact hf
  | f :: fs, p :: ps =>
    by_cases hid : (f.id == p.id) = true
    · simp only [hid, if_true]
      exact hp
    · simp only [hid, if_false, Bool.false_eq_true]
      by_cases hemp : (newOnes (f :: fs) (p :: ps)).isEmpty = true
      · simp only [hemp, if_true]
        exact hp
      · simp only [hemp, if_false, Bool.false_eq_true]
        exact nodupIds_jsMapDedup _

lemma nodupIds_mergeRefreshOld (fetched posts : List Post)
    (hf : nodupIds fetched) (hp : nodupIds posts) :
    nodupIds (mergeRefreshOld fetched posts) := by
  unfold mergeRefreshOld
  match fetched, posts with
  | [], ps => exact hp
  | f :: fs, [] => exact hf
  | f :: fs, p :: ps =>
    by_cases hid : (f.id == p.id) = true
    · simp only [hid, if_true]
      exact hp
    · simp only [hid, if_false, Bool.false_eq_true]
      by_cases hemp : (newOnes (f :: fs) (p :: ps)).isEmpty = true
      · simp only [hemp, if_true]
        exact hp
      · simp only [hemp, if_false, Bool.false_eq_true]
        exact nodupIds_newOnes_append (f :: fs) (p :: ps) hf hp

/-- C1: starting from a FeedSnapshot whose ids are pairwise distinct, any
sequence of background-refresh merges with fetched lists whose ids are
pairwise distinct again yields a snapshot with no duplicate id — both for
the current merge (with the `Map` dedupe) and for the older variant that
prepends without the `Map` pass. -/
theorem mergeRefresh_sequence_nodup_C1 (init : List Post)
    (fetches : List (List Post)) (h0 : nodupIds init)
    (hf : ∀ f ∈ fetches, nodupIds f) :
    nodupIds (fetches.foldl (fun s f => mergeRefresh f s) init) ∧
    nodupIds (fetches.foldl (fun s f => mergeRefreshOld f s) init) := by
  induction fetches generalizing init with
  | nil => exact ⟨h0, h0⟩
  | cons f fs ih =>
    have hfhead : nodupIds f := hf f (by simp)
    have hftail : ∀ g ∈ fs, nodupIds g := fun g hg => hf g (by simp [hg])
    refine ⟨?_, ?_⟩
    · exact (ih (mergeRefresh f init) (nodupIds_mergeRefresh f init hfhead h0) hftail).1
    · exact (ih (mergeRefreshOld f init) (nodupIds_mergeRefreshOld f init hfhead h0) hftail).2

/-- Sample posts used as concrete witnesses (named after the spec's merge
scenario: `N1(t=10)`, `N2(t=5)`, `N3(t=15)`, plus an older entry `N4`). -/
def noteOne : Post :=
  ⟨"N1", "10", "note one", none, false, "u1", none, none⟩

def noteTwo : Post :=
  ⟨"N2", "05", "note two", none, false, "u1", none, none⟩

def noteThree : Post :=
  ⟨"N3", "15", "note three", none, false, "u1", none, none⟩

def noteFour : Post :=
  ⟨"N4", "01", "note four", none, false, "u1", none, none⟩

theorem mergeRefresh_sequence_nodup_C1_witness :
    nodupIds [noteOne, noteTwo] ∧
    (∀ f ∈ [[noteThree, noteOne, noteTwo]], nodupIds f) ∧
    (nodupIds ([[noteThree, noteOne, noteTwo]].foldl
        (fun s f => mergeRefresh f s) [noteOne, noteTwo]) ∧
      nodupIds ([[noteThree, noteOne, noteTwo]].foldl
        (fun s f => mergeRefreshOld f s) [noteOne, noteTwo])) :=
  ⟨by decide, by decide,
    mergeRefresh_sequence_nodup_C1 [noteOne, noteTwo]
      [[noteThree, noteOne, noteTwo]] (by decide) (by decide)⟩

/-- C2 counterexample: for snapshot `[N1]` and fetched list `[N1, N4]` the
head ids coincide, so the background-refresh merge leaves the snapshot
untouched and, contrary to the claim, does not prepend the absent entry
`N4`; the merge result differs from the prepend-the-absent-entries result
the claim describes. -/
theorem mergeRefresh_prepend_C2_counterexample :
    mergeRefresh [noteOne, noteFour] [noteOne] = [noteOne] ∧
    specPrependAbsent [noteOne, noteFour] [noteOne] = [noteFour, noteOne] ∧
    mergeRefresh [noteOne, noteFour] [noteOne] ≠
      specPrependAbsent [noteOne, noteFour] [noteOne] := by
  decide

/-- C2 (amended): when both the snapshot and the fetched list are non-empty
with duplicate-free ids and their head ids differ, the background-refresh
merge prepends exactly the fetched entries whose ids are absent from the
snapshot, in fetched order, and keeps every snapshot entry unchanged in
place. -/
theorem mergeRefresh_prepend_C2 (f p : Post) (fs ps : List Post)
    (hf : nodupIds (f :: fs)) (hp : nodupIds (p :: ps))
    (hne : f.id ≠ p.id) :
    mergeRefresh (f :: fs) (p :: ps) = specPrependAbsent (f :: fs) (p :: ps) := by
  have hbeq : (f.id == p.id) = false := by
    simpa using hne
  unfold mergeRefresh specPrependAbsent
  simp only [hbeq, Bool.false_eq_true, if_false]
  by_cases hemp : (newOnes (f :: fs) (p :: ps)).isEmpty = true
  · simp only [hemp, if_true]
    have hnil : newOnes (f :: fs) (p :: ps) = [] := by
      simpa [List.isEmpty_iff] using hemp
    rw [show ((f :: fs).filter fun q => ! hasId (p :: ps) q.id) =
        newOnes (f :: fs) (p :: ps) from rfl, hnil]
    simp
  · simp only [hemp, Bool.false_eq_true, if_false]
    exact jsMapDedup_of_nodupIds _ (nodupIds_newOnes_append (f :: fs) (p :: ps) hf hp)

/-- Spec scenario for C2: cached `[N1(t=10), N2(t=5)]` merged with fetched
`[N3(t=15), N1, N2]` yields exactly `[N3, N1, N2]` with `N1`, `N2`
unchanged. -/
theorem mergeRefresh_prepend_C2_witness :
    mergeRefresh [noteThree, noteOne, noteTwo] [noteOne, noteTwo] =
      specPrependAbsent [noteThree, noteOne, noteTwo] [noteOne, noteTwo] ∧
    mergeRefresh [noteThree, noteOne, noteTwo] [noteOne, noteTwo] =
      [noteThree, noteOne, noteTwo] :=
  ⟨mergeRefresh_prepend_C2 noteThree noteOne [noteOne, noteTwo] [noteTwo]
      (by decide) (by decide) (by decide),
    by decide⟩

/-- `s.trim()`: strip leading and trailing whitespace (an executable model
of the JavaScript string method, used because the code trims search terms
and post content before using them). -/
def strTrim (s : String) : String :=
  ⟨((s.data.dropWhile Char.isWhitespace).reverse.dropWhile Char.isWhitespace).reverse⟩

/-- One filter attached to a store query by the supabase query builder. -/
inductive QueryFilter where
  | eqCol (column value : String)
  | ilike (column pattern : String)
  | textSearch (column query ty : String)
  | containsTags (column : String) (values : List String)
  deriving DecidableEq, Repr

/-- One `order` clause of a store query. -/
structure OrderClause where
  column : String
  ascending : Bool
  deriving DecidableEq, Repr

/-- The shape of a built store query: selected columns, filters, order
clauses and an optional row limit. -/
structure PostsQuery where
  selectCols : String
  filters : List QueryFilter
  orderBy : List OrderClause
  limitTo : Option Nat
  deriving DecidableEq, Repr

/-- The query built by `fetchAndSetPosts` in `src/app/PostsClient.tsx`
(lines 76-87): select the feed columns, order by `created_at` descending,
filter by `user_id` when a session exists and "only mine" is on, and filter
by `ilike` on `content` with a percent-wrapped term when the trimmed
debounced search term is non-empty. -/
def clientFeedQuery (sessionPresent showOnlyMine : Bool)
    (userId debouncedSearchTerm : String) : PostsQuery :=
  { selectCols := "id, created_at, content, tags, is_starred, user_id"
    filters :=
      (if sessionPresent && showOnlyMine then [QueryFilter.eqCol "user_id" userId] else []) ++
      (if strTrim debouncedSearchTerm ≠ "" then
        [QueryFilter.ilike "content" ("%" ++ strTrim debouncedSearchTerm ++ "%")] else [])
    orderBy := [⟨"created_at", false⟩]
    limitTo := none }

/-- The query built by `GET /api/posts` in `src/app/api/posts/route.ts`
(lines 68-82): select the listing columns, order by `created_at`
descending, cap the limit at 100, apply `textSearch` on the `fts` column in
websearch mode when `q` is non-empty, and a tag containment filter when
`tag` is non-empty. -/
def apiPostsGetQuery (q tag : String) (lim : Nat) : PostsQuery :=
  { selectCols := "id, created_at, content, tags, is_starred"
    filters :=
      (if q ≠ "" then [QueryFilter.textSearch "fts" q "websearch"] else []) ++
      (if tag ≠ "" then [QueryFilter.containsTags "tags" [tag]] else [])
    orderBy := [⟨"created_at", false⟩]
    limitTo := some (min lim 100) }

/-- Whether a filter goes through the store's text-search index. -/
def usesTextSearch : QueryFilter → Bool
  | QueryFilter.textSearch _ _ _ => true
  | _ => false

/-- C3 counterexample: for the non-empty search term "cardio" the feed
fetcher of `PostsClient.tsx` issues a naive `ilike` substring filter and no
text-search filter at all, so the fetch does not go through the store's
full-text index as the claim states. -/
theorem clientFeedQuery_textSearch_C3_counterexample :
    (clientFeedQuery true false "u1" "cardio").filters =
      [QueryFilter.ilike "content" "%cardio%"] ∧
    (clientFeedQuery true false "u1" "cardio").filters.any usesTextSearch = false := by
  decide

/-- C3 (amended): for every non-empty trimmed search term the client feed
fetcher filters by a case-insensitive percent-wrapped substring match
(`ilike`) on `content` and never by the store's text-search index; ranked
word-stem full-text matching over the `fts` column is issued only by the
REST listing endpoint `GET /api/posts` (and by a non-current client
variant). -/
theorem clientFeedQuery_ilike_C3 (sessionPresent showOnlyMine : Bool)
    (userId t q tag : String) (lim : Nat)
    (ht : strTrim t ≠ "") (hq : q ≠ "") :
    QueryFilter.ilike "content" ("%" ++ strTrim t ++ "%") ∈
      (clientFeedQuery sessionPresent showOnlyMine userId t).filters ∧
    (clientFeedQuery sessionPresent showOnlyMine userId t).filters.any
      usesTextSearch = false ∧
    QueryFilter.textSearch "fts" q "websearch" ∈ (apiPostsGetQuery q tag lim).filters := by
  refine ⟨?_, ?_, ?_⟩
  · simp [clientFeedQuery, ht]
  · rcases sessionPresent with _ | _ <;> rcases showOnlyMine with _ | _ <;>
      simp [clientFeedQuery, ht, usesTextSearch]
  · simp [apiPostsGetQuery, hq]

theorem clientFeedQuery_ilike_C3_witness :
    strTrim "cardio" ≠ "" ∧ "heart attack" ≠ "" ∧
    (QueryFilter.ilike "content" ("%" ++ strTrim "cardio" ++ "%") ∈
        (clientFeedQuery true true "u1" "cardio").filters ∧
      (clientFeedQuery true true "u1" "cardio").filters.any usesTextSearch = false ∧
      QueryFilter.textSearch "fts" "heart attack" "websearch" ∈
        (apiPostsGetQuery "heart attack" "" 20).filters) :=
  ⟨by decide, by decide,
    clientFeedQuery_ilike_C3 true true "u1" "cardio" "heart attack" "" 20
      (by decide) (by decide)⟩

/-- Executable lexicographic comparison on char lists, used to interpret an
`order` clause over string-valued columns (kernel-reducible, unlike the
built-in string order). -/
def charListLe : List Char → List Char → Bool
  | [], _ => true
  | _ :: _, [] => false
  | a :: as, b :: bs =>
    if a.toNat < b.toNat then true
    else if b.toNat < a.toNat then false
    else charListLe as bs

/-- String comparison for order-clause semantics. -/
def strLe (a b : String) : Bool :=
  charListLe a.data b.data

/-- The value of an ordering column of a post row (the two columns the
claims are about). -/
def colValue (column : String) (p : Post) : String :=
  if column = "created_at" then p.created_at
  else if column = "id" then p.id
  else ""

/-- Whether two adjacent rows satisfy one `order` clause. -/
def pairOk (c : OrderClause) (x y : Post) : Bool :=
  if c.ascending then strLe (colValue c.column x) (colValue c.column y)
  else strLe (colValue c.column y) (colValue c.column x)

/-- Whether a row sequence is sorted according to one `order` clause. -/
def sortedByClause (c : OrderClause) : List Post → Bool
  | [] => true
  | [_] => true
  | x :: y :: rest => pairOk c x y && sortedByClause c (y :: rest)

/-- Whether a row sequence is an admissible store answer for the given
`order` clauses: for the single-clause queries built in this code this is
exactly the ordering contract the store promises. -/
def respectsOrderBy (clauses : List OrderClause) (rows : List Post) : Bool :=
  clauses.all (fun c => sortedByClause c rows)

/-- Two rows sharing a `created_at` value but with distinct ids, used to
exhibit an ordering tie. -/
def tieRowA : Post :=
  ⟨"A", "2024-01-01T00:00:00Z", "tie a", none, false, "u1", none, none⟩

def tieRowB : Post :=
  ⟨"B", "2024-01-01T00:00:00Z", "tie b", none, false, "u1", none, none⟩

/-- C9 counterexample: both the client feed query and the REST listing query
order by `created_at` descending only — no `id` clause is requested — so for
two rows tied on `created_at` both id orders `[A, B]` and `[B, A]` satisfy
every requested order clause: the returned id sequence is not determined,
contradicting "ties broken by `id` ascending ... deterministic". -/
theorem feedQuery_order_C9_counterexample :
    (clientFeedQuery true false "u1" "").orderBy = [⟨"created_at", false⟩] ∧
    (apiPostsGetQuery "" "" 20).orderBy = [⟨"created_at", false⟩] ∧
    (⟨"id", true⟩ : OrderClause) ∉ (clientFeedQuery true false "u1" "").orderBy ∧
    respectsOrderBy (clientFeedQuery true false "u1" "").orderBy
      [tieRowA, tieRowB] = true ∧
    respectsOrderBy (clientFeedQuery true false "u1" "").orderBy
      [tieRowB, tieRowA] = true ∧
    tieRowA.id ≠ tieRowB.id := by
  decide

/-- C9 (amended): every feed fetch orders by `created_at` descending only;
neither the client feed query nor the REST listing query requests an `id`
tiebreaker, so rows tied on `created_at` have no store-determined relative
order. -/
theorem feedQuery_order_C9 (sessionPresent showOnlyMine : Bool)
    (userId t q tag : String) (lim : Nat) :
    (clientFeedQuery sessionPresent showOnlyMine userId t).orderBy =
      [⟨"created_at", false⟩] ∧
    (apiPostsGetQuery q tag lim).orderBy = [⟨"created_at", false⟩] ∧
    (⟨"id", true⟩ : OrderClause) ∉
      (clientFeedQuery sessionPresent showOnlyMine userId t).orderBy := by
  refine ⟨rfl, rfl, ?_⟩
  simp [clientFeedQuery]

/-- The pieces of the post-detail page state that the `toggleStar` handler
reads and writes (`src/app/posts/[id]/page.tsx`, lines 167-189). -/
structure StarToggleState where
  postLoaded : Bool
  togglingStar : Bool
  isStarred : Bool
  deriving DecidableEq, Repr

/-- The `toggleStar` handler: guarded no-op when the post is missing or a
toggle is already in flight; otherwise it captures the current value, sets
the flipped value optimistically, and on store-update failure restores
exactly the captured prior value. The result pairs the value rendered while
the round trip is in flight with the state after completion. -/
def toggleStar (s : StarToggleState) (updateFails : Bool) : Bool × StarToggleState :=
  if !s.postLoaded || s.togglingStar then (s.isStarred, s)
  else
    let currentStarredStatus := s.isStarred
    let newStarredStatus := !currentStarredStatus
    if updateFails then
      (newStarredStatus, { s with isStarred := currentStarredStatus, togglingStar := false })
    else
      (newStarredStatus, { s with isStarred := newStarredStatus, togglingStar := false })

/-- C4: a star toggle whose store update fails applies the flipped value
optimistically while in flight and afterwards leaves `isStarred` exactly
equal to its pre-toggle value (the captured prior value); a second failed
toggle again returns to the same value. -/
theorem toggleStar_rollback_C4 (s : StarToggleState)
    (hpost : s.postLoaded = true) (hidle : s.togglingStar = false) :
    (toggleStar s true).1 = !s.isStarred ∧
    (toggleStar s true).2.isStarred = s.isStarred ∧
    (toggleStar (toggleStar s true).2 true).2.isStarred = s.isStarred := by
  simp [toggleStar, hpost, hidle]

theorem toggleStar_rollback_C4_witness :
    (⟨true, false, true⟩ : StarToggleState).postLoaded = true ∧
    ((toggleStar ⟨true, false, true⟩ true).1 = !true ∧
      (toggleStar ⟨true, false, true⟩ true).2.isStarred = true ∧
      (toggleStar (toggleStar ⟨true, false, true⟩ true).2 true).2.isStarred = true) :=
  ⟨by decide, toggleStar_rollback_C4 ⟨true, false, true⟩ (by decide) (by decide)⟩

/-- The feed-view state touched by `fetchAndSetPosts`. -/
structure FeedViewState where
  posts : List Post
  error : Option String
  loadingPosts : Bool
  deriving DecidableEq, Repr

/-- The `catch` branch of `fetchAndSetPosts` (`src/app/PostsClient.tsx`,
lines 124-130): set a single error message, clear the posts list, and (in
the `finally`) clear the loading flag. -/
def fetchFailure (_prev : FeedViewState) (message : String) : FeedViewState :=
  { posts := [], error := some ("Failed to load posts: " ++ message), loadingPosts := false }

/-- What `renderPostsList` shows (`src/app/PostsClient.tsx`, lines
288-380), in source branch order. -/
inductive RenderView where
  | loadingView
  | errorView (msg : String)
  | emptyPrompt
  | noMatch
  | noneOwnView
  | listView (rows : List Post)
  | nothingView
  deriving DecidableEq, Repr

/-- `renderPostsList` as a function of the state it reads. -/
def renderPostsList (posts : List Post) (loadingPosts : Bool)
    (error : Option String) (searchTerm : String)
    (showOnlyMine sessionPresent : Bool) (userId : String) : RenderView :=
  let visiblePosts :=
    if showOnlyMine && sessionPresent then
      posts.filter (fun p => p.user_id == userId)
    else posts
  if posts.isEmpty && loadingPosts then RenderView.loadingView
  else
    match error with
    | some e => RenderView.errorView e
    | none =>
      if posts.isEmpty && strTrim searchTerm = "" then RenderView.emptyPrompt
      else if posts.isEmpty then RenderView.noMatch
      else if visiblePosts.isEmpty && showOnlyMine then RenderView.noneOwnView
      else if !visiblePosts.isEmpty then RenderView.listView visiblePosts
      else RenderView.nothingView

/-- C5 counterexample: a fetch failure over the last good snapshot `[N1]`
does surface a single error message, but it also blanks the rendered list —
the posts state after the failure is `[]`, not the prior snapshot `[N1]` —
contradicting "the last good FeedSnapshot remains on screen unchanged". -/
theorem fetchFailure_keeps_snapshot_C5_counterexample :
    (fetchFailure ⟨[noteOne], none, true⟩ "network down").error =
      some "Failed to load posts: network down" ∧
    (fetchFailure ⟨[noteOne], none, true⟩ "network down").posts = [] ∧
    (fetchFailure ⟨[noteOne], none, true⟩ "network down").posts ≠ [noteOne] := by
  decide

/-- C5 (amended): when a feed fetch fails, a single visible error message is
surfaced at the feed-view level, but the last good FeedSnapshot does not
remain on screen: the posts list is cleared to empty and the view renders
only the error message. -/
theorem fetchFailure_blanks_snapshot_C5 (s : FeedViewState) (message : String)
    (searchTerm userId : String) (showOnlyMine sessionPresent : Bool) :
    (fetchFailure s message).error = some ("Failed to load posts: " ++ message) ∧
    (fetchFailure s message).posts = [] ∧
    renderPostsList (fetchFailure s message).posts
        (fetchFailure s message).loadingPosts (fetchFailure s message).error
        searchTerm showOnlyMine sessionPresent userId =
      RenderView.errorView ("Failed to load posts: " ++ message) := by
  refine ⟨rfl, rfl, ?_⟩
  simp [fetchFailure, renderPostsList]

/-- The component and browser state touched by sign-out: the in-memory
feed-view state together with the sessionStorage key-value pairs. -/
structure SessionAppState where
  sessionPresent : Bool
  posts : List Post
  error : Option String
  showOnlyMine : Bool
  searchTerm : String
  loadingSession : Bool
  storage : List (String × String)
  deriving DecidableEq, Repr

/-- `handleLogout` (`src/app/PostsClient.tsx`, lines 272-281): sign out,
reset the in-memory state. No `sessionStorage` call appears in the handler,
so the storage map is untouched. -/
def handleLogout (s : SessionAppState) : SessionAppState :=
  { sessionPresent := false, posts := [], error := none, showOnlyMine := false,
    searchTerm := "", loadingSession := false, storage := s.storage }

/-- The `onAuthStateChange` handler for a vanished session
(`src/app/PostsClient.tsx`, lines 58-66): reset the in-memory state, again
with no `sessionStorage` call. -/
def onAuthSignedOut (s : SessionAppState) : SessionAppState :=
  { s with
      sessionPresent := false
      posts := []
      error := none
      showOnlyMine := false
      searchTerm := "" }

/-- C6 counterexample: signing out from a state whose sessionStorage holds a
cached feed snapshot under `postsCache` leaves that entry in place — the
cached snapshot survives sign-out (through both the logout handler and the
auth-state-change handler), contradicting "no cached feed snapshot survives
sign-out". -/
theorem handleLogout_cache_C6_counterexample :
    ((handleLogout ⟨true, [noteOne], none, false, "", false,
        [("postsCache", "[snapshot]")]⟩).storage.lookup "postsCache" =
      some "[snapshot]") ∧
    ((onAuthSignedOut ⟨true, [noteOne], none, false, "", false,
        [("postsCache", "[snapshot]")]⟩).storage.lookup "postsCache" =
      some "[snapshot]") := by
  decide

/-- C6 (amended): sign-out resets the in-memory feed state (session gone,
posts emptied, error and filters cleared) but leaves sessionStorage — and in
particular any `postsCache` entry — entirely unchanged; the cached snapshot
is not cleared on sign-out. -/
theorem handleLogout_cache_C6 (s : SessionAppState) :
    (handleLogout s).storage = s.storage ∧
    (onAuthSignedOut s).storage = s.storage ∧
    (handleLogout s).sessionPresent = false ∧
    (handleLogout s).posts = [] ∧
    (handleLogout s).error = none ∧
    (handleLogout s).searchTerm = "" := by
  exact ⟨rfl, rfl, rfl, rfl, rfl, rfl⟩

/-- The `useDebounce` hook (`src/app/PostsClient.tsx`, lines 24-31) run over
a timeline of raw updates `(time, value)` with strictly increasing times:
each update schedules an emission of its value at `time + delay` via
`setTimeout`, and the effect cleanup for the next update clears a timer
that has not yet fired. The result is the list of emissions that actually
fire, in time order. -/
def debounceEmissions (delay : Nat) : List (Nat × String) → List (Nat × String)
  | [] => []
  | u :: rest =>
    match rest with
    | [] => [(u.1 + delay, u.2)]
    | u2 :: rest2 =>
      if u2.1 < u.1 + delay then debounceEmissions delay (u2 :: rest2)
      else (u.1 + delay, u.2) :: debounceEmissions delay (u2 :: rest2)

/-- A burst of raw updates: every update arrives strictly within `delay` of
its predecessor. -/
def rapidBurst (delay : Nat) : List (Nat × String) → Bool
  | [] => true
  | u :: rest =>
    match rest with
    | [] => true
    | u2 :: rest2 => decide (u2.1 < u.1 + delay) && rapidBurst delay (u2 :: rest2)

/-- C7: when every raw update arrives strictly within `delay` of its
predecessor, each new update cancels the pending emission of the previous
one, and the whole burst produces exactly one downstream emission: the last
value, `delay` after the last update. -/
theorem debounce_burst_C7 (delay : Nat) (u : Nat × String)
    (us : List (Nat × String))
    (hburst : rapidBurst delay (u :: us) = true) :
    debounceEmissions delay (u :: us) =
      [(((u :: us).getLast (by simp)).1 + delay,
        ((u :: us).getLast (by simp)).2)] := by
  induction us generalizing u with
  | nil => rfl
  | cons u2 us ih =>
    have hsplit : decide (u2.1 < u.1 + delay) = true ∧
        rapidBurst delay (u2 :: us) = true := by
      simpa [rapidBurst] using hburst
    have hlt : u2.1 < u.1 + delay := of_decide_eq_true hsplit.1
    have hstep : debounceEmissions delay (u :: u2 :: us) =
        debounceEmissions delay (u2 :: us) := by
      simp [debounceEmissions, hlt]
    rw [hstep, ih u2 hsplit.2]
    simp [List.getLast_cons]

/-- Spec scenario for C7: inputs "a", "ab", "abc" at 0ms, 100ms, 200ms with
a 500ms window emit exactly once, "abc" at 700ms. -/
theorem debounce_burst_C7_witness :
    debounceEmissions 500 [(0, "a"), (100, "ab"), (200, "abc")] =
      [(700, "abc")] := by
  have h := debounce_burst_C7 500 (0, "a") [(100, "ab"), (200, "abc")]
    (by decide)
  simpa using h

/-- One step of collecting a storage path into the JavaScript `Set` of
`fetchAllSignedUrls`: falsy (empty) paths are skipped and `Set.add` is a
no-op on an already-present path. -/
def addPath (acc : List String) (path : String) : List String :=
  if path = "" then acc
  else if acc.contains path then acc
  else acc ++ [path]

/-- The unique-path collection pass of `fetchAllSignedUrls`
(`src/app/PostsClient.tsx`, lines 137-165): walk every post's `imagePaths`
and accumulate the distinct non-empty paths; the upstream `createSignedUrl`
call is then issued exactly once per element of this list. -/
def uniqueImagePaths (posts : List Post) : List String :=
  posts.foldl (fun acc post => (post.imagePaths.getD []).foldl addPath acc) []

lemma mem_foldl_addPath (paths : List String) :
    ∀ (acc : List String) (x : String),
      x ∈ paths.foldl addPath acc ↔ x ∈ acc ∨ (x ≠ "" ∧ x ∈ paths) := by
  induction paths with
  | nil => intro acc x; simp
  | cons p ps ih =>
    intro acc x
    rw [List.foldl_cons, ih]
    constructor
    · rintro (hx | hx)
      · unfold addPath at hx
        by_cases hp0 : p = ""
        · rw [if_pos hp0] at hx
          exact Or.inl hx
        · rw [if_neg hp0] at hx
          by_cases hpc : acc.contains p
          · rw [if_pos hpc] at hx
            exact Or.inl hx
          · rw [if_neg hpc] at hx
            rcases List.mem_append.mp hx with hx | hx
            · exact Or.inl hx
            · simp only [List.mem_singleton] at hx
              subst hx
              exact Or.inr ⟨hp0, by simp⟩
      · exact Or.inr ⟨hx.1, by simp [hx.2]⟩
    · rintro (hx | ⟨hx0, hx⟩)
      · left
        unfold addPath
        by_cases hp0 : p = ""
        · rw [if_pos hp0]; exact hx
        · rw [if_neg hp0]
          by_cases hpc : acc.contains p
          · rw [if_pos hpc]; exact hx
          · rw [if_neg hpc]; exact List.mem_append.mpr (Or.inl hx)
      · rcases List.mem_cons.mp hx with hxp | hxs
        · subst hxp
          left
          unfold addPath
          rw [if_neg hx0]
          by_cases hpc : acc.contains x
          · rw [if_pos hpc]
            simpa using hpc
          · rw [if_neg hpc]
            exact List.mem_append.mpr (Or.inr (by simp))
        · exact Or.inr ⟨hx0, hxs⟩

lemma nodup_foldl_addPath (paths : List String) :
    ∀ acc : List String, acc.Nodup → (paths.foldl addPath acc).Nodup := by
  induction paths with
  | nil => intro acc h; simpa using h
  | cons p ps ih =>
    intro acc h
    rw [List.foldl_cons]
    refine ih (addPath acc p) ?_
    unfold addPath
    by_cases hp0 : p = ""
    · rw [if_pos hp0]; exact h
    · rw [if_neg hp0]
      by_cases hpc : acc.contains p
      · rw [if_pos hpc]; exact h
      · rw [if_neg hpc]
        rw [List.nodup_append]
        refine ⟨h, List.nodup_singleton _, ?_⟩
        intro x hx hx2
        simp only [List.mem_singleton] at hx2
        subst hx2
        exact hpc (by simpa using hx)

lemma mem_uniqueImagePaths (posts : List Post) (x : String) :
    x ∈ uniqueImagePaths posts ↔
      x ≠ "" ∧ ∃ post ∈ posts, x ∈ post.imagePaths.getD [] := by
  unfold uniqueImagePaths
  suffices h : ∀ acc : List String,
      x ∈ posts.foldl (fun acc post => (post.imagePaths.getD []).foldl addPath acc) acc ↔
        x ∈ acc ∨ (x ≠ "" ∧ ∃ post ∈ posts, x ∈ post.imagePaths.getD []) by
    simpa using h []
  induction posts with
  | nil => intro acc; simp
  | cons q qs ih =>
    intro acc
    rw [List.foldl_cons, ih, mem_foldl_addPath]
    constructor
    · rintro ((hx | ⟨hx0, hx⟩) | ⟨hx0, post, hpost, hx⟩)
      · exact Or.inl hx
      · exact Or.inr ⟨hx0, q, by simp, hx⟩
      · exact Or.inr ⟨hx0, post, by simp [hpost], hx⟩
    · rintro (hx | ⟨hx0, post, hpost, hx⟩)
      · exact Or.inl (Or.inl hx)
      · rcases List.mem_cons.mp hpost with hq | hqs
        · subst hq
          exact Or.inl (Or.inr ⟨hx0, hx⟩)
        · exact Or.inr ⟨hx0, post, hqs, hx⟩

lemma nodup_uniqueImagePaths (posts : List Post) : (uniqueImagePaths posts).Nodup := by
  unfold uniqueImagePaths
  suffices h : ∀ acc : List String, acc.Nodup →
      (posts.foldl (fun acc post => (post.imagePaths.getD []).foldl addPath acc) acc).Nodup by
    exact h [] (by simp)
  induction posts with
  | nil => intro acc h; simpa using h
  | cons q qs ih =>
    intro acc h
    rw [List.foldl_cons]
    exact ih _ (nodup_foldl_addPath _ acc h)

/-- C8: within one signed-URL resolution cycle, the upstream `signUrl` call
list contains any given path at most once, and a non-empty path that occurs
in at least one rendered post's `imagePaths` — however many posts share it —
is called for exactly once. -/
theorem signedUrl_dedup_C8 (posts : List Post) (path : String) :
    (uniqueImagePaths posts).count path ≤ 1 ∧
    (path ≠ "" →
      posts.any (fun post => (post.imagePaths.getD []).contains path) = true →
      (uniqueImagePaths posts).count path = 1) := by
  constructor
  · exact List.nodup_iff_count_le_one.mp (nodup_uniqueImagePaths posts) path
  · intro h0 hsome
    have hmem : path ∈ uniqueImagePaths posts := by
      rw [mem_uniqueImagePaths]
      refine ⟨h0, ?_⟩
      simp only [List.any_eq_true] at hsome
      obtain ⟨post, hpost, hc⟩ := hsome
      exact ⟨post, hpost, by simpa using hc⟩
    exact List.count_eq_one_of_mem (nodup_uniqueImagePaths posts) hmem

/-- Three posts sharing one thumbnail path. -/
def thumbPostOne : Post :=
  ⟨"T1", "10", "t1", none, false, "u1", some ["shared.png"], none⟩

def thumbPostTwo : Post :=
  ⟨"T2", "11", "t2", none, false, "u1", some ["shared.png"], none⟩

def thumbPostThree : Post :=
  ⟨"T3", "12", "t3", none, false, "u1", some ["shared.png", "other.png"], none⟩

theorem signedUrl_dedup_C8_witness :
    (uniqueImagePaths [thumbPostOne, thumbPostTwo, thumbPostThree]).count
        "shared.png" ≤ 1 ∧
    (uniqueImagePaths [thumbPostOne, thumbPostTwo, thumbPostThree]).count
        "shared.png" = 1 :=
  ⟨(signedUrl_dedup_C8 [thumbPostOne, thumbPostTwo, thumbPostThree] "shared.png").1,
    (signedUrl_dedup_C8 [thumbPostOne, thumbPostTwo, thumbPostThree] "shared.png").2
      (by decide) (by decide)⟩

/-- The row payload inserted into `posts` by `POST /api/posts`
(`src/app/api/posts/route.ts`, lines 38-47). -/
structure InsertedPostRow where
  content : String
  tags : List String
  user_id : String
  secret_url : Option String
  deriving DecidableEq, Repr

/-- Outcome of the `POST /api/posts` handler before the store round trip:
401 without an authenticated user, 400 on missing or blank content,
otherwise the insert payload it sends. -/
inductive CreatePostResult where
  | unauthorized
  | badRequest
  | inserted (row : InsertedPostRow)
  deriving DecidableEq, Repr

/-- The `POST /api/posts` handler: `authUser` is the user id resolved from
the bearer token (none when authentication fails), `content`/`tags` the
body fields (`none` models a missing or non-string/non-array value), and
`freshUuid` the value produced by the `uuidv4()` call in the insert. -/
def createPostHandler (authUser : Option String) (content : Option String)
    (tags : Option (List String)) (freshUuid : String) : CreatePostResult :=
  match authUser with
  | none => CreatePostResult.unauthorized
  | some uid =>
    match content with
    | none => CreatePostResult.badRequest
    | some c =>
      if strTrim c = "" then CreatePostResult.badRequest
      else
        CreatePostResult.inserted
          { content := strTrim c
            tags := tags.getD []
            user_id := uid
            secret_url := some freshUuid }

/-- C10: every authenticated `POST /api/posts` request with non-empty
trimmed content inserts a row whose `secret_url` is the freshly generated
UUID — never null — so each note created through the endpoint is born with
a public share link. -/
theorem createPost_secretUrl_C10 (uid c : String) (tags : Option (List String))
    (freshUuid : String) (hc : strTrim c ≠ "") :
    createPostHandler (some uid) (some c) tags freshUuid =
      CreatePostResult.inserted
        { content := strTrim c
          tags := tags.getD []
          user_id := uid
          secret_url := some freshUuid } ∧
    ∀ row, createPostHandler (some uid) (some c) tags freshUuid =
      CreatePostResult.inserted row → row.secret_url ≠ none := by
  constructor
  · simp [createPostHandler, hc]
  · intro row hrow
    simp [createPostHandler, hc] at hrow
    rw [← hrow]
    simp

theorem createPost_secretUrl_C10_witness :
    createPostHandler (some "u1") (some " chest pain note ") none "uuid-1234" =
      CreatePostResult.inserted
        { content := strTrim " chest pain note "
          tags := ([] : List String)
          user_id := "u1"
          secret_url := some "uuid-1234" } ∧
    ∀ row, createPostHandler (some "u1") (some " chest pain note ") none "uuid-1234" =
      CreatePostResult.inserted row → row.secret_url ≠ none :=
  createPost_secretUrl_C10 "u1" " chest pain note " none "uuid-1234" (by decide)
